import Mathlib

/-!
Verification of the master-ledger core of the referral-tracker application
(file `referrals_app.py`): month normalization, append-with-batch provenance,
batch deletion, master loading, and the source-by-month pivot with windowing,
zero-fill, sorting, and averages.

Data frames are modelled as lists of records.  Pandas / NumPy ascending sorts
are modelled by a stable insertion sort; a descending sort is the reversal of
the ascending one, matching pandas `nargsort` (`indexer = indexer[::-1]`).
String operations of the source (`str.strip`, `str.startswith`, slicing,
`int(...)` on digit strings) are modelled character-wise.
-/

namespace Referrals

/-! ## A stable sort, modelling pandas ascending sorts -/

/-- Stable insertion of `a` into `l`: `a` is placed before the first element
`b` with `le a b`, so an element inserted from the left stays before equal
keys, as in a stable sort. -/
def insertLe (le : α → α → Bool) (a : α) : List α → List α
  | [] => [a]
  | b :: t => if le a b then a :: b :: t else b :: insertLe le a t

/-- Stable insertion sort; the model of pandas `sort_index` / `sort_values`
with `ascending=True`. -/
def sortLe (le : α → α → Bool) : List α → List α
  | [] => []
  | a :: t => insertLe le a (sortLe le t)

/-! ## Character-level models of the Python string operations used -/

/-- Numeric value of a decimal digit character. -/
def dval (c : Char) : Nat := c.toNat - 48

/-- Drop leading ASCII whitespace from a character list. -/
def dropLeadingWs : List Char → List Char
  | [] => []
  | c :: t => if c.isWhitespace then dropLeadingWs t else c :: t

/-- Model of Python `str.strip()`: remove leading and trailing whitespace. -/
def pyStrip (s : String) : String :=
  String.mk ((dropLeadingWs ((dropLeadingWs s.toList).reverse)).reverse)

/-- Model of Python `str.startswith(p)`. -/
def startsWithStr (s p : String) : Bool :=
  p.toList.isPrefixOf s.toList

/-- Lexicographic comparison of character lists by code point, the order
Python (and hence pandas sorting) uses on strings. -/
def strLeB : List Char → List Char → Bool
  | [], _ => true
  | _ :: _, [] => false
  | a :: as, b :: bs =>
    if a.toNat = b.toNat then strLeB as bs else decide (a.toNat < b.toNat)

/-- Model of Python string comparison `a <= b` (code-point lexicographic). -/
def strLe (a b : String) : Bool := strLeB a.toList b.toList

/-- Model of the Python slice `s[:7]` used by `load_master` on the month
column: the first seven characters. -/
def slice7 (s : String) : String := String.mk (s.toList.take 7)

/-- Value of a nonempty all-digit character list, as Python `int(...)`;
`none` when the list is empty or holds a non-digit (where the code would
raise instead). -/
def digitsToNat : List Char → Option Nat
  | [] => none
  | cs => cs.foldl (fun acc c => match acc with
      | none => none
      | some n => if c.isDigit then some (n * 10 + dval c) else none) (some 0)

/-- Model of `s.str[-2:].astype(int)` applied to one month string: the last
two characters read as a number (0 when they are not digits, where the code
would raise). -/
def monthNum (s : String) : Nat :=
  (digitsToNat (s.toList.drop (s.toList.length - 2))).getD 0

/-! ## Calendar model (Python `datetime` validity) -/

/-- A structured date, the result of a successful parse. -/
structure Date where
  y : Nat
  m : Nat
  d : Nat
deriving DecidableEq

/-- Gregorian leap-year rule, as in Python `datetime`. -/
def isLeap (y : Nat) : Bool := y % 4 = 0 && (y % 100 ≠ 0 || y % 400 = 0)

/-- Number of days in a month, as in Python `datetime`. -/
def daysInMonth (y m : Nat) : Nat :=
  if m = 2 then (if isLeap y then 29 else 28)
  else if m = 4 ∨ m = 6 ∨ m = 9 ∨ m = 11 then 30
  else 31

/-- Validity check performed by the `datetime(year, month, day)` constructor
(`MINYEAR = 1`, `MAXYEAR = 9999`); a failing construction raises `ValueError`,
which `normalize_month` catches before trying the next format. -/
def validDate (y m d : Nat) : Bool :=
  decide (1 ≤ y ∧ y ≤ 9999 ∧ 1 ≤ m ∧ m ≤ 12 ∧ 1 ≤ d ∧ d ≤ daysInMonth y m)

/-- Zero-padded two-digit rendering, as `strftime("%m")` / Python `{:02d}`. -/
def pad2 (n : Nat) : String := if n < 10 then "0" ++ toString n else toString n

/-- Model of `strftime("%Y-%m")` for the four-digit years this program
handles. -/
def fmtYM (y m : Nat) : String := toString y ++ "-" ++ pad2 m

/-! ## strptime model

CPython's `_strptime` compiles each format into an anchored regular
expression and requires it to consume the whole string.  The directives used
by `normalize_month` translate to: `%Y` is exactly four digits, `%m` is
`1[0-2]|0[1-9]|[1-9]`, `%d` is `3[01]|[12]\d|0[1-9]|[1-9]` (alternatives
tried left to right), a space matches one or more whitespace characters, and
`%b` / `%B` match the C-locale month names case-insensitively.  A successful
match then builds `datetime(y, m, d)`, which enforces calendar validity. -/

/-- Directive `%Y`: exactly four decimal digits. -/
def parseY : List Char → Option (Nat × List Char)
  | a :: b :: c :: d :: rest =>
    if a.isDigit && b.isDigit && c.isDigit && d.isDigit then
      some (dval a * 1000 + dval b * 100 + dval c * 10 + dval d, rest)
    else none
  | _ => none

/-- Directive `%m`: the regex `1[0-2]|0[1-9]|[1-9]`, alternatives in order. -/
def parseM : List Char → Option (Nat × List Char)
  | c1 :: c2 :: rest =>
    if c1 = '1' ∧ ('0' ≤ c2 ∧ c2 ≤ '2') then some (10 + dval c2, rest)
    else if c1 = '0' ∧ ('1' ≤ c2 ∧ c2 ≤ '9') then some (dval c2, rest)
    else if '1' ≤ c1 ∧ c1 ≤ '9' then some (dval c1, c2 :: rest)
    else none
  | [c1] => if '1' ≤ c1 ∧ c1 ≤ '9' then some (dval c1, []) else none
  | [] => none

/-- Directive `%d`: the regex `3[01]|[12]\d|0[1-9]|[1-9]`, alternatives in
order. -/
def parseD : List Char → Option (Nat × List Char)
  | c1 :: c2 :: rest =>
    if c1 = '3' ∧ (c2 = '0' ∨ c2 = '1') then some (30 + dval c2, rest)
    else if (c1 = '1' ∨ c1 = '2') ∧ c2.isDigit then some (dval c1 * 10 + dval c2, rest)
    else if c1 = '0' ∧ ('1' ≤ c2 ∧ c2 ≤ '9') then some (dval c2, rest)
    else if '1' ≤ c1 ∧ c1 ≤ '9' then some (dval c1, c2 :: rest)
    else none
  | [c1] => if '1' ≤ c1 ∧ c1 ≤ '9' then some (dval c1, []) else none
  | [] => none

/-- A literal character of the format string. -/
def expectChar (c : Char) : List Char → Option (List Char)
  | d :: rest => if d = c then some rest else none
  | [] => none

/-- One or more whitespace characters (a space in a strptime format). -/
def skipWs1 : List Char → Option (List Char)
  | c :: rest => if c.isWhitespace then some (dropLeadingWs rest) else none
  | [] => none

/-- Case-insensitive match of a (lowercase) name against a prefix of the
input. -/
def matchName (nm : List Char) (cs : List Char) : Option (List Char) :=
  if (cs.take nm.length).map Char.toLower = nm then some (cs.drop nm.length)
  else none

/-- C-locale abbreviated month names for `%b` (matched case-insensitively;
no name is a prefix of another, so the alternation order is immaterial). -/
def monthAbbrTbl : List (List Char × Nat) :=
  [("jan".toList, 1), ("feb".toList, 2), ("mar".toList, 3), ("apr".toList, 4),
   ("may".toList, 5), ("jun".toList, 6), ("jul".toList, 7), ("aug".toList, 8),
   ("sep".toList, 9), ("oct".toList, 10), ("nov".toList, 11), ("dec".toList, 12)]

/-- C-locale full month names for `%B`. -/
def monthFullTbl : List (List Char × Nat) :=
  [("january".toList, 1), ("february".toList, 2), ("march".toList, 3),
   ("april".toList, 4), ("may".toList, 5), ("june".toList, 6),
   ("july".toList, 7), ("august".toList, 8), ("september".toList, 9),
   ("october".toList, 10), ("november".toList, 11), ("december".toList, 12)]

/-- Try each month name of a table against the input. -/
def parseNameFrom (tbl : List (List Char × Nat)) (cs : List Char) :
    Option (Nat × List Char) :=
  match tbl with
  | [] => none
  | (nm, v) :: rest =>
    match matchName nm cs with
    | some r => some (v, r)
    | none => parseNameFrom rest cs

/-- Format `"%Y-%m"` (day defaults to 1). -/
def tryFmtYM (cs : List Char) : Option Date := do
  let (y, r1) ← parseY cs
  let r2 ← expectChar '-' r1
  let (m, r3) ← parseM r2
  if r3 = [] && validDate y m 1 then some ⟨y, m, 1⟩ else none

/-- Format `"%Y/%m"`. -/
def tryFmtYslashM (cs : List Char) : Option Date := do
  let (y, r1) ← parseY cs
  let r2 ← expectChar '/' r1
  let (m, r3) ← parseM r2
  if r3 = [] && validDate y m 1 then some ⟨y, m, 1⟩ else none

/-- Format `"%Y-%m-%d"`. -/
def tryFmtYMD (cs : List Char) : Option Date := do
  let (y, r1) ← parseY cs
  let r2 ← expectChar '-' r1
  let (m, r3) ← parseM r2
  let r4 ← expectChar '-' r3
  let (d, r5) ← parseD r4
  if r5 = [] && validDate y m d then some ⟨y, m, d⟩ else none

/-- Format `"%d/%m/%Y"` — the day-first slash pattern. -/
def tryFmtDMY (cs : List Char) : Option Date := do
  let (d, r1) ← parseD cs
  let r2 ← expectChar '/' r1
  let (m, r3) ← parseM r2
  let r4 ← expectChar '/' r3
  let (y, r5) ← parseY r4
  if r5 = [] && validDate y m d then some ⟨y, m, d⟩ else none

/-- Format `"%m/%d/%Y"` — the month-first slash pattern. -/
def tryFmtMDY (cs : List Char) : Option Date := do
  let (m, r1) ← parseM cs
  let r2 ← expectChar '/' r1
  let (d, r3) ← parseD r2
  let r4 ← expectChar '/' r3
  let (y, r5) ← parseY r4
  if r5 = [] && validDate y m d then some ⟨y, m, d⟩ else none

/-- Format `"%b %Y"` (abbreviated month name, then year). -/
def tryFmtBY (cs : List Char) : Option Date := do
  let (m, r1) ← parseNameFrom monthAbbrTbl cs
  let r2 ← skipWs1 r1
  let (y, r3) ← parseY r2
  if r3 = [] && validDate y m 1 then some ⟨y, m, 1⟩ else none

/-- Format `"%B %Y"` (full month name, then year). -/
def tryFmtFullBY (cs : List Char) : Option Date := do
  let (m, r1) ← parseNameFrom monthFullTbl cs
  let r2 ← skipWs1 r1
  let (y, r3) ← parseY r2
  if r3 = [] && validDate y m 1 then some ⟨y, m, 1⟩ else none

/-- The strptime loop of `normalize_month`: the seven formats
`("%Y-%m", "%Y/%m", "%Y-%m-%d", "%d/%m/%Y", "%m/%d/%Y", "%b %Y", "%B %Y")`
tried in that order, first success wins. -/
def strptimeList (cs : List Char) : Option Date :=
  match tryFmtYM cs with
  | some d => some d
  | none =>
  match tryFmtYslashM cs with
  | some d => some d
  | none =>
  match tryFmtYMD cs with
  | some d => some d
  | none =>
  match tryFmtDMY cs with
  | some d => some d
  | none =>
  match tryFmtMDY cs with
  | some d => some d
  | none =>
  match tryFmtBY cs with
  | some d => some d
  | none => tryFmtFullBY cs

/-! ## normalize_month -/

/-- A Python value reaching `normalize_month`: a missing value (pandas NaN /
None), a structured date (`pd.Timestamp` / `datetime`), or text. -/
inductive PyVal where
  | na
  | stamp (y m d : Nat)
  | txt (s : String)
deriving DecidableEq

/-- Minute (or second) field of a bare time string: `[0-5][0-9]`. -/
def minuteOk (m1 m2 : Char) : Bool :=
  decide ('0' ≤ m1 ∧ m1 ≤ '5') && m2.isDigit

/-- Two-digit hour field of a bare time string: `[01][0-9]` or `2[0-3]`. -/
def hourOk2 (h1 h2 : Char) : Bool :=
  (decide (h1 = '0' ∨ h1 = '1') && h2.isDigit)
    || (decide (h1 = '2') && decide ('0' ≤ h2 ∧ h2 ≤ '3'))

/-- A bare time-of-day string — `H:MM`, `HH:MM`, `H:MM:SS` or `HH:MM:SS` —
the shapes behind pandas' time fast path (`_TIMEPAT`,
`does_string_look_like_time`), which parses them with the CURRENT DATE as
the default. -/
def isTimeOfDay : List Char → Bool
  | [h1, c1, m1, m2] =>
    decide (c1 = ':') && h1.isDigit && minuteOk m1 m2
  | [h1, h2, c1, m1, m2] =>
    decide (c1 = ':') && hourOk2 h1 h2 && minuteOk m1 m2
  | [h1, c1, m1, m2, c2, s1, s2] =>
    decide (c1 = ':') && decide (c2 = ':') && h1.isDigit
      && minuteOk m1 m2 && minuteOk s1 s2
  | [h1, h2, c1, m1, m2, c2, s1, s2] =>
    decide (c1 = ':') && decide (c2 = ':') && hourOk2 h1 h2
      && minuteOk m1 m2 && minuteOk s1 s2
  | _ => false

/-- Model of the external `pd.to_datetime(s, errors="coerce")` fallback of
`normalize_month`, covering exactly the clock-dependent entry points of the
pandas parser: the relative keywords `"now"` and `"today"` resolve to the
current wall clock, and a bare time-of-day string is parsed with the current
date as its default (pandas' time fast path hands such strings to dateutil
without the fixed `datetime(1, 1, 1)` default it uses otherwise), so its
date part is the current date.  Every other string is collapsed to a failed
parse: the rest of the external parser is outside this model's scope, and no
theorem in this development depends on the fallback's result for such
strings — the determinism theorem quantifies only over inputs resolved
before the fallback is consulted. -/
def pd_to_datetime (now : Date) (s : String) : Option Date :=
  if s = "now" ∨ s = "today" then some now
  else if isTimeOfDay s.toList then some now
  else none

/-- Model of `normalize_month(val)` (the `now` argument is the wall clock,
consulted only by the pandas fallback):
missing values map to `None`; a structured date is formatted directly as
`YYYY-MM`; text is stripped and run through the seven strptime formats in
order, then through the generic pandas fallback. -/
def normalize_month (now : Date) (v : PyVal) : Option String :=
  match v with
  | .na => none
  | .stamp y m _ => some (fmtYM y m)
  | .txt s =>
    let t := pyStrip s
    match strptimeList t.toList with
    | some d => some (fmtYM d.y d.m)
    | none =>
      match pd_to_datetime now t with
      | some d => some (fmtYM d.y d.m)
      | none => none

/-! ## Ledger model -/

/-- One row of the in-memory master ledger as the app's own appends produce
it: person and source are (possibly empty) strings, the month is a string
key, and `batch_id` is absent (`NaN`) only for legacy rows. -/
structure Row where
  referred_person : String
  referral_source : String
  month : String
  batch_id : Option String
deriving DecidableEq

/-- One row of the persisted store as read back by `pd.read_csv`: every cell
may be missing (`NaN`), modelled as `none`. -/
structure StoredRow where
  referred_person : Option String
  referral_source : Option String
  month : Option String
  batch_id : Option String
deriving DecidableEq

/-- One row of the master data frame right after `load_master`: only the
month column has been coerced to a string; the other columns keep their
possibly missing values. -/
structure LoadedRow where
  referred_person : Option String
  referral_source : Option String
  month : String
  batch_id : Option String
deriving DecidableEq

/-- Model of Python `str(cell)` on a possibly missing cell, as applied by
`astype(str)`: a missing value (float NaN) renders as the string `"nan"`. -/
def strCell : Option String → String
  | none => "nan"
  | some s => s

/-- Model of `load_master` on a readable store: every stored month value is
coerced by `df["month"].astype(str).str.slice(0, 7)` — the first seven
characters of its string rendering — while the other columns pass through
unchanged.  (An absent file or an unreadable one yields the empty ledger;
a missing `batch_id` column is backfilled with missing values.) -/
def load_master (store : List StoredRow) : List LoadedRow :=
  store.map fun r =>
    ⟨r.referred_person, r.referral_source, slice7 (strCell r.month), r.batch_id⟩

/-! ## Append to Master -/

/-- One raw uploaded row as handed over by the UI shell after column
mapping: each text cell may be missing (pandas NaN), and the month cell may
hold any date-like value. -/
structure InputRow where
  person : Option String
  source : Option String
  monthCell : PyVal
deriving DecidableEq

/-- The month-assignment policy of the upload form: one picked month for all
rows, or a per-row column fed through `normalize_month`. -/
inductive MonthMode where
  | pickMonth (chosen : String)
  | fromColumn
deriving DecidableEq

/-- One row of `df_new` before filtering: person and source after
`astype(str).str.strip()`, and the resolved month (possibly `None`). -/
structure Staged where
  person : String
  source : String
  monthOpt : Option String
deriving DecidableEq

/-- Build one staged row of `df_new`. -/
def stageRow (now : Date) (mode : MonthMode) (r : InputRow) : Staged :=
  { person := pyStrip (strCell r.person)
    source := pyStrip (strCell r.source)
    monthOpt := match mode with
      | .pickMonth m => some m
      | .fromColumn => normalize_month now r.monthCell }

/-- The row filter of the append handler:
`df_new.dropna(subset=["referral_source", "month"])` followed by
`df_new[df_new["referral_source"] != ""]`.  After `astype(str)` the source
column holds no missing values, so `dropna` only removes rows whose resolved
month is `None`; the second filter removes empty-string sources. -/
def keepRow (s : Staged) : Bool :=
  s.monthOpt.isSome && decide (s.source ≠ "")

/-- Result of one append: the persisted ledger and the reported counts. -/
structure AppendResult where
  ledger : List Row
  accepted : Nat
  rejected : Nat
deriving DecidableEq

/-- Model of the `Append to Master` handler: stage all rows, filter, tag the
survivors with the one fresh `batch_id` of this call (`bid`, derived from the
wall-clock timestamp), and persist the concatenation of the previously loaded
master (`prior`) with the accepted rows.  `accepted` is the surviving row
count, `rejected` the dropped row count. -/
def appendToMaster (now : Date) (data : List InputRow) (mode : MonthMode)
    (prior : List Row) (bid : String) : AppendResult :=
  let staged := data.map (stageRow now mode)
  let kept := staged.filter keepRow
  let fresh := kept.map fun s =>
    Row.mk s.person s.source (s.monthOpt.getD "") (some bid)
  { ledger := prior ++ fresh
    accepted := kept.length
    rejected := staged.length - kept.length }

/-! ## Batch deletion -/

/-- Model of the sidebar batch deletion
`master = master[~(master["batch_id"] == sel_id)]`: keep exactly the rows
whose `batch_id` differs from the selected identifier.  A missing `batch_id`
compares unequal to any string in pandas, so legacy rows are kept. -/
def delete_batch (master : List Row) (sel : String) : List Row :=
  master.filter fun r => decide (¬ r.batch_id = some sel)

/-! ## Windowing and pivot -/

/-- Model of `months_in_year(year, through_month)`: the month keys
`"YYYY-01"` … up to `through_month`, or the full year when `through_month`
is `None`.  Python's `through_month or 12` also turns a zero into 12. -/
def months_in_year (year : String) (through : Option Nat) : List String :=
  let last := match through with
    | none => 12
    | some t => if t = 0 then 12 else t
  (List.range' 1 last).map fun mm => year ++ "-" ++ pad2 mm

/-- The sorted month numbers present in the selected year:
`master.loc[master["month"].str.startswith(year), "month"].str[-2:]
.astype(int).sort_values()`. -/
def monthsForYear (master : List Row) (year : String) : List Nat :=
  sortLe (fun a b => decide (a ≤ b))
    ((master.filter fun r => startsWithStr r.month year).map fun r =>
      monthNum r.month)

/-- Model of the YTD cutoff: the last (largest) entry of the sorted month
numbers with data in the selected year, or 12 when the year has no data
(`int(months_for_year.iloc[-1]) if len(months_for_year) else 12`).  The
computation never consults the wall clock. -/
def cutoff_month (master : List Row) (year : String) : Nat :=
  if (monthsForYear master year).isEmpty then 12
  else (monthsForYear master year).getLastD 12

/-- The year-filtered master further restricted to months up to the cutoff
(`master_year[master_year["month"].str[-2:].astype(int) <= cutoff_month]`). -/
def ytd_rows (master : List Row) (year : String) (cutoff : Nat) : List Row :=
  (master.filter fun r => startsWithStr r.month year).filter fun r =>
    decide (monthNum r.month ≤ cutoff)

/-- Count of ledger records for one `(referral_source, month)` cell — the
group size of the `groupby(["referral_source", "month"]).size()` step; the
later `fillna(0)` with the added all-zero columns makes an absent group an
explicit 0, which is this count being 0. -/
def recordCount (rs : List Row) (src m : String) : Nat :=
  (rs.filter fun r => decide (r.referral_source = src ∧ r.month = m)).length

/-- Distinct referral sources of a record set (the pivot's row index before
sorting). -/
def dedupStr : List String → List String
  | [] => []
  | a :: t =>
    let t' := dedupStr t
    if a ∈ t' then t' else a :: t'

/-- The pivot's row index: the distinct referral sources, alphabetically
ascending (`pivot(...).sort_index()`). -/
def pivotSources (rs : List Row) : List String :=
  sortLe strLe (dedupStr (rs.map fun r => r.referral_source))

/-- Model of the dense pivot: one row per distinct source (ascending), one
column per month of the requested window `w` in order (`pivot = pivot[full_months]`
after the zero-fill loop added every missing month column as 0). -/
def pivotMatrix (rs : List Row) (w : List String) : List (String × List Nat) :=
  (pivotSources rs).map fun src => (src, w.map fun m => recordCount rs src m)

/-- Cell of a pivot row at column index `j` (0 outside the window). -/
def colVal (j : Nat) (p : String × List Nat) : Nat := p.2.getD j 0

/-- Model of the sorting controls: `sort_choice = "(Alphabetical)"`
(`sortChoice = none`, the select box default) re-sorts rows by source name,
otherwise (`sortChoice = some j`) by the chosen month column's values; the
`Ascending` checkbox (default `False`) picks the direction, a descending
sort being the reversal of the stable ascending sort as in pandas
`nargsort`. -/
def pivot_view (pivot : List (String × List Nat)) (sortChoice : Option Nat)
    (ascending : Bool) : List (String × List Nat) :=
  match sortChoice with
  | none =>
    let s := sortLe (fun a b => strLe a.1 b.1) pivot
    if ascending then s else s.reverse
  | some j =>
    let s := sortLe (fun a b => decide (colVal j a ≤ colVal j b)) pivot
    if ascending then s else s.reverse

/-- Model of `pivot[full_months].mean(axis=1)` for one source: the mean over
every column of the full window `w`, zero months included. -/
def avg_per_source (rs : List Row) (w : List String) (src : String) : ℚ :=
  (((w.map fun m => recordCount rs src m).sum : ℚ)) / (w.length : ℚ)

/-- Ordering by a numeric key with ties broken by a name: the order in which
a stable sort by the key alone leaves a name-sorted list. -/
def lexKN (key : α → Nat) (nm : α → String) (a b : α) : Prop :=
  key a < key b ∨ (key a = key b ∧ strLe (nm a) (nm b) = true)

/-! ## Concrete example data for the witnesses and counterexamples -/

/-- Ledger with one record for source `"A"` in month `"2025-01"`. -/
def exC1rows : List Row := [⟨"p", "A", "2025-01", some "b1"⟩]

/-- Ledger used by the C1 witness: source `"A"` has data only in
`"2025-02"`. -/
def exC1wrows : List Row := [⟨"x", "A", "2025-02", none⟩]

/-- The five-row upload of the C2 example: rows 2 and 4 have an empty
referral source (empty after trimming). -/
def exC2data : List InputRow :=
  [⟨some "p1", some "Alpha", PyVal.na⟩, ⟨some "p2", some "", PyVal.na⟩,
   ⟨some "p3", some "Beta", PyVal.na⟩, ⟨some "p4", some "  ", PyVal.na⟩,
   ⟨some "p5", some "Gamma", PyVal.na⟩]

/-- A one-row prior master for the C2 example. -/
def exC2prior : List Row := [⟨"q", "Old", "2024-12", none⟩]

/-- Ledger used by the C6 witness: 2025 has data in months 1 and 3, and
2024 also has data. -/
def exC6master : List Row :=
  [⟨"p", "A", "2025-03", none⟩, ⟨"q", "B", "2025-01", some "b"⟩,
   ⟨"r", "C", "2024-12", none⟩]

/-- Ledger used by the C8 witness: two batches and one legacy row. -/
def exC8master : List Row :=
  [⟨"p", "A", "2025-01", some "b1"⟩, ⟨"q", "B", "2025-02", some "b2"⟩,
   ⟨"p", "A", "2025-01", some "b1"⟩, ⟨"r", "C", "2025-03", none⟩]

/-! ## Properties of the stable sort model -/

theorem mem_insertLe {le : α → α → Bool} {a x : α} {l : List α} :
    x ∈ insertLe le a l ↔ x = a ∨ x ∈ l := by
  induction l with
  | nil => simp [insertLe]
  | cons b t ih =>
    simp only [insertLe]
    split
    · simp only [List.mem_cons]
    · simp only [List.mem_cons, ih]
      tauto

theorem mem_sortLe {le : α → α → Bool} {x : α} {l : List α} :
    x ∈ sortLe le l ↔ x ∈ l := by
  induction l with
  | nil => simp [sortLe]
  | cons a t ih => simp only [sortLe, mem_insertLe, List.mem_cons, ih]

theorem length_insertLe {le : α → α → Bool} (a : α) (l : List α) :
    (insertLe le a l).length = l.length + 1 := by
  induction l with
  | nil => simp [insertLe]
  | cons b t ih =>
    simp only [insertLe]
    split
    · simp
    · simp [ih]

theorem length_sortLe {le : α → α → Bool} (l : List α) :
    (sortLe le l).length = l.length := by
  induction l with
  | nil => simp [sortLe]
  | cons a t ih => simp [sortLe, length_insertLe, ih]

theorem pairwise_insertLe {le : α → α → Bool}
    (htot : ∀ a b, le a b = true ∨ le b a = true)
    (htr : ∀ a b c, le a b = true → le b c = true → le a c = true)
    {a : α} {l : List α} (h : l.Pairwise fun x y => le x y = true) :
    (insertLe le a l).Pairwise fun x y => le x y = true := by
  induction l with
  | nil => simp [insertLe]
  | cons b t ih =>
    rw [List.pairwise_cons] at h
    obtain ⟨hb, ht⟩ := h
    simp only [insertLe]
    split
    · rename_i hab
      rw [List.pairwise_cons]
      refine ⟨?_, List.pairwise_cons.mpr ⟨hb, ht⟩⟩
      intro x hx
      rcases List.mem_cons.mp hx with rfl | hx
      · exact hab
      · exact htr _ _ _ hab (hb x hx)
    · rename_i hab
      rw [List.pairwise_cons]
      refine ⟨?_, ih ht⟩
      intro x hx
      rcases mem_insertLe.mp hx with rfl | hx
      · rcases htot b x with h' | h'
        · exact h'
        · exact absurd h' hab
      · exact hb x hx

theorem pairwise_sortLe {le : α → α → Bool}
    (htot : ∀ a b, le a b = true ∨ le b a = true)
    (htr : ∀ a b c, le a b = true → le b c = true → le a c = true)
    (l : List α) :
    (sortLe le l).Pairwise fun x y => le x y = true := by
  induction l with
  | nil => simp [sortLe]
  | cons a t ih => exact pairwise_insertLe htot htr ih

theorem strLeB_total : ∀ as bs : List Char, strLeB as bs = true ∨ strLeB bs as = true := by
  intro as
  induction as with
  | nil => intro bs; left; rfl
  | cons a as ih =>
    intro bs
    cases bs with
    | nil => right; rfl
    | cons b bs =>
      by_cases hab : a.toNat = b.toNat
      · rcases ih bs with h | h
        · left
          simp [strLeB, hab, h]
        · right
          simp [strLeB, hab.symm, h]
      · rcases Nat.lt_or_ge a.toNat b.toNat with h | h
        · left
          simp [strLeB, hab, h]
        · right
          have hba : ¬ b.toNat = a.toNat := fun he => hab he.symm
          have : b.toNat < a.toNat := by omega
          simp [strLeB, hba, this]

theorem strLeB_trans : ∀ as bs cs : List Char,
    strLeB as bs = true → strLeB bs cs = true → strLeB as cs = true := by
  intro as
  induction as with
  | nil => intro bs cs _ _; rfl
  | cons a as ih =>
    intro bs cs h1 h2
    cases bs with
    | nil => simp [strLeB] at h1
    | cons b bs =>
      cases cs with
      | nil => simp [strLeB] at h2
      | cons c cs =>
        rw [strLeB] at h1 h2 ⊢
        by_cases hab : a.toNat = b.toNat
        · rw [if_pos hab] at h1
          by_cases hbc : b.toNat = c.toNat
          · rw [if_pos hbc] at h2
            rw [if_pos (hab.trans hbc)]
            exact ih bs cs h1 h2
          · rw [if_neg hbc, decide_eq_true_eq] at h2
            rw [if_neg (by omega), decide_eq_true_eq]
            omega
        · rw [if_neg hab, decide_eq_true_eq] at h1
          by_cases hbc : b.toNat = c.toNat
          · rw [if_pos hbc] at h2
            rw [if_neg (by omega), decide_eq_true_eq]
            omega
          · rw [if_neg hbc, decide_eq_true_eq] at h2
            rw [if_neg (by omega), decide_eq_true_eq]
            omega

theorem strLe_total (a b : String) : strLe a b = true ∨ strLe b a = true :=
  strLeB_total a.toList b.toList

theorem strLe_trans {a b c : String} (h1 : strLe a b = true)
    (h2 : strLe b c = true) : strLe a c = true :=
  strLeB_trans a.toList b.toList c.toList h1 h2

theorem pairwise_lex_insertLe (key : α → Nat) (nm : α → String) {a : α}
    {l : List α} (hl : l.Pairwise (lexKN key nm))
    (ha : ∀ b ∈ l, strLe (nm a) (nm b) = true) :
    (insertLe (fun x y => decide (key x ≤ key y)) a l).Pairwise (lexKN key nm) := by
  induction l with
  | nil => simp [insertLe]
  | cons b t ih =>
    rw [List.pairwise_cons] at hl
    obtain ⟨hb, ht⟩ := hl
    simp only [insertLe]
    split
    · rename_i hab
      rw [decide_eq_true_eq] at hab
      rw [List.pairwise_cons]
      refine ⟨?_, List.pairwise_cons.mpr ⟨hb, ht⟩⟩
      intro x hx
      rcases List.mem_cons.mp hx with rfl | hx
      · rcases Nat.lt_or_ge (key a) (key x) with h' | h'
        · exact Or.inl h'
        · exact Or.inr ⟨Nat.le_antisymm hab h', ha x (List.mem_cons_self _ _)⟩
      · rcases hb x hx with h' | ⟨h1, _⟩
        · exact Or.inl (Nat.lt_of_le_of_lt hab h')
        · rcases Nat.lt_or_ge (key a) (key x) with h'' | h''
          · exact Or.inl h''
          · refine Or.inr ⟨by omega, ha x (List.mem_cons_of_mem _ hx)⟩
    · rename_i hab
      rw [decide_eq_true_eq] at hab
      have hba : key b < key a := Nat.not_le.mp hab
      rw [List.pairwise_cons]
      refine ⟨?_, ih ht fun c hc => ha c (List.mem_cons_of_mem _ hc)⟩
      intro x hx
      rcases mem_insertLe.mp hx with rfl | hx
      · exact Or.inl hba
      · exact hb x hx

theorem pairwise_lex_sortLe (key : α → Nat) (nm : α → String) {l : List α}
    (hl : l.Pairwise fun a b => strLe (nm a) (nm b) = true) :
    (sortLe (fun x y => decide (key x ≤ key y)) l).Pairwise (lexKN key nm) := by
  induction l with
  | nil => simp [sortLe]
  | cons a t ih =>
    rw [List.pairwise_cons] at hl
    obtain ⟨ha, ht⟩ := hl
    exact pairwise_lex_insertLe key nm (ih ht)
      fun b hb => ha b (mem_sortLe.mp hb)

theorem getLastD_mem : ∀ (l : List α) (d : α), l ≠ [] → l.getLastD d ∈ l
  | [], _, h => absurd rfl h
  | [b], d, _ => by simp [List.getLastD_cons]
  | b :: c :: t, d, _ => by
    rw [List.getLastD_cons]
    exact List.mem_cons_of_mem _ (getLastD_mem (c :: t) b (by simp))

theorem rel_getLastD_of_pairwise {R : α → α → Prop} :
    ∀ {l : List α}, l.Pairwise R → ∀ {x : α}, x ∈ l →
      ∀ d, x = l.getLastD d ∨ R x (l.getLastD d)
  | [], _, x, hx, _ => absurd hx (List.not_mem_nil x)
  | [b], _, x, hx, d => by
    rw [List.mem_singleton] at hx
    subst hx
    left
    simp [List.getLastD_cons]
  | b :: c :: t, h, x, hx, d => by
    rw [List.pairwise_cons] at h
    obtain ⟨hb, ht⟩ := h
    rw [List.getLastD_cons]
    rcases List.mem_cons.mp hx with rfl | hx'
    · exact Or.inr (hb _ (getLastD_mem _ _ (by simp)))
    · exact rel_getLastD_of_pairwise ht hx' b

theorem length_filter_not_add (p : α → Bool) (l : List α) :
    (l.filter fun a => !(p a)).length + (l.filter p).length = l.length := by
  induction l with
  | nil => simp
  | cons a t ih =>
    cases hpa : p a <;> simp [List.filter_cons, hpa] <;> omega

/-! ## Claim C10 — load-time month coercion -/

/-- C10: loading the ledger coerces every stored month value to the first
seven characters of its string rendering, leaving all other columns
untouched: a persisted full date "2025-08-15" loads as "2025-08", a
malformed month value is silently truncated rather than rejected, and a
missing month value loads as the literal string "nan" (a string, never a
null). -/
theorem C10_load_month_coercion :
    (∀ store : List StoredRow,
        (load_master store).map (fun r => r.month)
            = store.map (fun r => slice7 (strCell r.month)) ∧
        (load_master store).map (fun r => r.referred_person)
            = store.map (fun r => r.referred_person) ∧
        (load_master store).map (fun r => r.referral_source)
            = store.map (fun r => r.referral_source) ∧
        (load_master store).map (fun r => r.batch_id)
            = store.map (fun r => r.batch_id)) ∧
    (load_master [⟨some "p", some "A", some "2025-08-15", some "b"⟩]).map
        (fun r => r.month) = ["2025-08"] ∧
    (load_master [⟨none, none, some "totally-malformed", none⟩]).map
        (fun r => r.month) = ["totally"] ∧
    (load_master [⟨none, none, none, none⟩]).map (fun r => r.month) = ["nan"] := by
  refine ⟨fun store => ⟨?_, ?_, ?_, ?_⟩, by decide, by decide, by decide⟩ <;>
    simp [load_master, List.map_map, Function.comp]

/-! ## Claim C8 — batch deletion removes exactly the selected batch -/

/-- C8: deleting a batch removes exactly the rows whose batch_id equals the
selected identifier and no others: the ledger row count decreases by exactly
that batch's row count, the remaining rows are a subsequence of the original
ledger, rows of the batch have multiplicity 0 afterwards, and every row with
a different (or missing) batch_id keeps its multiplicity. -/
theorem C8_delete_batch (master : List Row) (sel : String) :
    ((delete_batch master sel).length
        + (master.filter fun r => decide (r.batch_id = some sel)).length
      = master.length) ∧
    (delete_batch master sel).Sublist master ∧
    (∀ r : Row, r.batch_id = some sel → (delete_batch master sel).count r = 0) ∧
    (∀ r : Row, r.batch_id ≠ some sel →
        (delete_batch master sel).count r = master.count r) := by
  refine ⟨?_, List.filter_sublist _, ?_, ?_⟩
  · have h := length_filter_not_add
      (fun r : Row => decide (r.batch_id = some sel)) master
    simpa [delete_batch, decide_not] using h
  · intro r hr
    rw [List.count_eq_zero]
    intro hmem
    rw [delete_batch, List.mem_filter] at hmem
    simp [hr] at hmem
  · intro r hr
    rw [delete_batch]
    exact List.count_filter (by simpa using hr)

/-- Witness for C8 at a concrete four-row ledger with two rows in batch
"b1", one in "b2" and one legacy row without a batch id. -/
theorem C8_delete_batch_witness :
    ((delete_batch exC8master "b1").length
        + (exC8master.filter fun r => decide (r.batch_id = some "b1")).length
      = exC8master.length) ∧
    (delete_batch exC8master "b1").count ⟨"p", "A", "2025-01", some "b1"⟩ = 0 ∧
    (delete_batch exC8master "b1").count ⟨"r", "C", "2025-03", none⟩
      = exC8master.count ⟨"r", "C", "2025-03", none⟩ :=
  ⟨(C8_delete_batch exC8master "b1").1,
   (C8_delete_batch exC8master "b1").2.2.1 _ (by decide),
   (C8_delete_batch exC8master "b1").2.2.2 _ (by decide)⟩

/-! ## Claim C4 — averages divide by the full window length -/

/-- C4: the per-source average is the sum of that source's counts over every
month of the full enumerated window divided by the number of months in the
window: the average times the window length always equals the total count
(zero months included), and for one record in a three-month window the
average is 1/3 — not the 1/1 a nonzero-months-only mean would give. -/
theorem C4_average_with_zeros :
    (∀ (rs : List Row) (w : List String) (src : String),
        avg_per_source rs w src * (w.length : ℚ)
          = ((w.map fun m => recordCount rs src m).sum : ℚ)) ∧
    avg_per_source exC1rows (months_in_year "2025" (some 3)) "A" = 1 / 3 ∧
    avg_per_source exC1rows (months_in_year "2025" (some 3)) "A" ≠ 1 := by
  have hmap : (months_in_year "2025" (some 3)).map
      (fun m => recordCount exC1rows "A" m) = [1, 0, 0] := by decide
  have hlen : (months_in_year "2025" (some 3)).length = 3 := by decide
  have key : avg_per_source exC1rows (months_in_year "2025" (some 3)) "A" = 1 / 3 := by
    rw [avg_per_source, hmap, hlen]
    norm_num
  refine ⟨?_, key, ?_⟩
  · intro rs w src
    rcases w with _ | ⟨a, t⟩
    · simp [avg_per_source]
    · rw [avg_per_source, div_mul_cancel₀]
      exact Nat.cast_ne_zero.mpr (by simp)
  · rw [key]
    norm_num

/-! ## Claim C1 — dense zero-filled pivot -/

/-- C1: the pivot matrix has one entry per month of the full enumerated
window in every row (not only months with data), a (source, month) cell with
no matching record holds the explicit count 0, and for a ledger with exactly
one record for source "A" in "2025-01" and the window "2025-01".."2025-03"
the matrix is exactly one row ("A") with values [1, 0, 0]. -/
theorem C1_pivot_zero_fill :
    (∀ (rs : List Row) (w : List String) (p : String × List Nat),
        p ∈ pivotMatrix rs w → p.2.length = w.length) ∧
    (∀ (rs : List Row) (w : List String) (src m : String) (vals : List Nat)
        (j : Nat), (src, vals) ∈ pivotMatrix rs w → j < w.length →
        w.getD j "" = m →
        (∀ r ∈ rs, ¬(r.referral_source = src ∧ r.month = m)) →
        vals.getD j 0 = 0) ∧
    months_in_year "2025" (some 3) = ["2025-01", "2025-02", "2025-03"] ∧
    pivotMatrix exC1rows (months_in_year "2025" (some 3)) = [("A", [1, 0, 0])] := by
  refine ⟨?_, ?_, by decide, by decide⟩
  · intro rs w p hp
    rw [pivotMatrix, List.mem_map] at hp
    obtain ⟨src, _, rfl⟩ := hp
    simp
  · intro rs w src m vals j hmem hj hm hnone
    rw [pivotMatrix, List.mem_map] at hmem
    obtain ⟨src', _, heq⟩ := hmem
    rw [Prod.mk.injEq] at heq
    obtain ⟨rfl, rfl⟩ := heq
    have hwj : w[j] = m := by
      rw [List.getD_eq_getElem?_getD, List.getElem?_eq_getElem hj,
        Option.getD_some] at hm
      exact hm
    have hjm : j < ((w.map fun m' => recordCount rs src' m')).length := by
      simpa using hj
    rw [List.getD_eq_getElem?_getD, List.getElem?_eq_getElem hjm,
      Option.getD_some, List.getElem_map, hwj, recordCount,
      List.length_eq_zero, List.filter_eq_nil_iff]
    intro r hr
    simpa using hnone r hr

/-- Witness for C1's zero-fill at a concrete input: source "A" has data only
in "2025-02", so its cell for "2025-01" is the explicit 0. -/
theorem C1_pivot_zero_fill_witness :
    (("A", [0, 1]) ∈ pivotMatrix exC1wrows ["2025-01", "2025-02"]) ∧
    ([0, 1].getD 0 0 = 0) :=
  ⟨by decide,
   C1_pivot_zero_fill.2.1 exC1wrows ["2025-01", "2025-02"] "A" "2025-01"
     [0, 1] 0 (by decide) (by decide) (by decide) (by decide)⟩

/-! ## Claim C2 — append accounting and provenance -/

/-- C2: one append reports accepted = the number of rows surviving the
source/month filters and rejected = the rest (they sum to the batch size),
the persisted ledger is exactly the previously loaded rows followed by the
accepted rows — so the prior row count grows by exactly the accepted count —
every appended row carries the one fresh batch id of the call, and the
five-row example with two empty sources yields accepted = 3, rejected = 2,
all three rows sharing the one batch id. -/
theorem C2_append_batch :
    (∀ (now : Date) (data : List InputRow) (mode : MonthMode)
        (prior : List Row) (bid : String),
        ((appendToMaster now data mode prior bid).accepted
            + (appendToMaster now data mode prior bid).rejected
          = data.length) ∧
        ((appendToMaster now data mode prior bid).accepted
          = ((data.map (stageRow now mode)).filter keepRow).length) ∧
        ((appendToMaster now data mode prior bid).ledger
          = prior ++ ((data.map (stageRow now mode)).filter keepRow).map
              (fun s => Row.mk s.person s.source (s.monthOpt.getD "") (some bid))) ∧
        ((appendToMaster now data mode prior bid).ledger.length
          = prior.length + (appendToMaster now data mode prior bid).accepted) ∧
        (∀ r ∈ (appendToMaster now data mode prior bid).ledger.drop prior.length,
          r.batch_id = some bid)) ∧
    ((appendToMaster ⟨2025, 1, 15⟩ exC2data (.pickMonth "2025-01") exC2prior
        "20250115093000").accepted = 3) ∧
    ((appendToMaster ⟨2025, 1, 15⟩ exC2data (.pickMonth "2025-01") exC2prior
        "20250115093000").rejected = 2) ∧
    ((appendToMaster ⟨2025, 1, 15⟩ exC2data (.pickMonth "2025-01") exC2prior
        "20250115093000").ledger.length = exC2prior.length + 3) ∧
    (∀ r ∈ (appendToMaster ⟨2025, 1, 15⟩ exC2data (.pickMonth "2025-01")
        exC2prior "20250115093000").ledger.drop exC2prior.length,
      r.batch_id = some "20250115093000") := by
  refine ⟨?_, by decide, by decide, by decide, by decide⟩
  intro now data mode prior bid
  refine ⟨?_, rfl, rfl, ?_, ?_⟩
  · simp only [appendToMaster]
    have h1 := List.length_filter_le keepRow (data.map (stageRow now mode))
    simp only [List.length_map] at *
    omega
  · simp [appendToMaster]
  · intro r hr
    simp only [appendToMaster, List.drop_left] at hr
    rw [List.mem_map] at hr
    obtain ⟨s, _, rfl⟩ := hr
    rfl

/-- Witness for C2 at the concrete five-row upload. -/
theorem C2_append_batch_witness :
    ((appendToMaster ⟨2025, 1, 15⟩ exC2data (.pickMonth "2025-01") exC2prior
        "b").accepted
      + (appendToMaster ⟨2025, 1, 15⟩ exC2data (.pickMonth "2025-01") exC2prior
        "b").rejected = exC2data.length) ∧
    ((⟨"p1", "Alpha", "2025-01", some "b"⟩ : Row)
      ∈ (appendToMaster ⟨2025, 1, 15⟩ exC2data (.pickMonth "2025-01") exC2prior
          "b").ledger.drop exC2prior.length) ∧
    (Row.mk "p1" "Alpha" "2025-01" (some "b")).batch_id = some "b" :=
  ⟨(C2_append_batch.1 ⟨2025, 1, 15⟩ exC2data (.pickMonth "2025-01") exC2prior "b").1,
   by decide,
   (C2_append_batch.1 ⟨2025, 1, 15⟩ exC2data (.pickMonth "2025-01") exC2prior
      "b").2.2.2.2 _ (by decide)⟩

/-! ## Claim C5 — the missing-source rejection is dead code -/

/-- C5 (code bug): a row whose referral_source cell is missing is NOT
rejected.  The handler runs `astype(str)` before `dropna`, and `astype(str)`
renders a missing value as the string "nan", so the
`dropna(subset=["referral_source", ...])` intended to drop such rows never
fires and the `!= ""` filter does not catch them either: appending one
missing-source row yields accepted = 1, rejected = 0, no error, and the
ledger gains a row whose referral source is the literal string "nan". -/
theorem C5_missing_source_accepted :
    ((appendToMaster ⟨2025, 1, 15⟩ [⟨some "P", none, PyVal.na⟩]
        (.pickMonth "2025-01") [] "b1").accepted = 1) ∧
    ((appendToMaster ⟨2025, 1, 15⟩ [⟨some "P", none, PyVal.na⟩]
        (.pickMonth "2025-01") [] "b1").rejected = 0) ∧
    ((appendToMaster ⟨2025, 1, 15⟩ [⟨some "P", none, PyVal.na⟩]
        (.pickMonth "2025-01") [] "b1").ledger
      = [⟨"P", "nan", "2025-01", some "b1"⟩]) := by
  decide

/-! ## Claim C9 — the normalizer and the wall clock -/

/-- C9 counterexample: the generic pandas fallback consults the wall clock —
the relative keyword "now" resolves to the current timestamp, and a bare
time-of-day string such as "10:15" is parsed with the current date as its
default — so two evaluations of the normalizer on the same input under
different clocks disagree: the normalizer is not clock-independent. -/
theorem C9_normalize_clock_cex :
    normalize_month ⟨2025, 1, 1⟩ (PyVal.txt "now") = some "2025-01" ∧
    normalize_month ⟨2025, 2, 1⟩ (PyVal.txt "now") = some "2025-02" ∧
    normalize_month ⟨2025, 1, 1⟩ (PyVal.txt "now")
      ≠ normalize_month ⟨2025, 2, 1⟩ (PyVal.txt "now") ∧
    normalize_month ⟨2025, 1, 1⟩ (PyVal.txt "10:15") = some "2025-01" ∧
    normalize_month ⟨2025, 2, 1⟩ (PyVal.txt "10:15") = some "2025-02" ∧
    normalize_month ⟨2025, 1, 1⟩ (PyVal.txt "10:15")
      ≠ normalize_month ⟨2025, 2, 1⟩ (PyVal.txt "10:15") := by
  decide

/-- C9 (amended): the normalizer is deterministic and clock-independent on
every input that is resolved before the generic fallback — a missing value,
a structured date, and every string one of the seven strptime formats
accepts are normalized identically under any two clocks (these branches
never consult the clock, and the C-locale month-name tables are fixed).  The
generic fallback itself is not clock-independent: it resolves the relative
keywords "now"/"today" and bare time-of-day strings against the current wall
clock (see the counterexample), so no determinism is asserted for inputs
only the fallback can parse. -/
theorem C9_normalize_deterministic :
    (∀ t1 t2 : Date, normalize_month t1 PyVal.na = normalize_month t2 PyVal.na) ∧
    (∀ (t1 t2 : Date) (y m d : Nat),
        normalize_month t1 (PyVal.stamp y m d)
          = normalize_month t2 (PyVal.stamp y m d)) ∧
    (∀ (t1 t2 : Date) (s : String) (d : Date),
        strptimeList (pyStrip s).toList = some d →
        normalize_month t1 (PyVal.txt s) = normalize_month t2 (PyVal.txt s)) := by
  refine ⟨fun _ _ => rfl, fun _ _ _ _ _ => rfl, ?_⟩
  intro t1 t2 s d h
  simp only [normalize_month, h]

/-- Witness for C9 at the concrete input "2025-08" (accepted by the first
strptime format) and two different clocks. -/
theorem C9_normalize_deterministic_witness :
    strptimeList (pyStrip "2025-08").toList = some ⟨2025, 8, 1⟩ ∧
    normalize_month ⟨2024, 1, 1⟩ (PyVal.txt "2025-08")
      = normalize_month ⟨2030, 12, 31⟩ (PyVal.txt "2025-08") :=
  ⟨by decide,
   C9_normalize_deterministic.2.2 ⟨2024, 1, 1⟩ ⟨2030, 12, 31⟩ "2025-08"
     ⟨2025, 8, 1⟩ (by decide)⟩

/-! ## Claim C3 — slash-pattern order in the strptime loop -/

theorem parseM_rest {cs : List Char} {v : Nat} {r : List Char}
    (h : parseM cs = some (v, r)) : r = cs.drop 1 ∨ r = cs.drop 2 := by
  rcases cs with _ | ⟨c1, _ | ⟨c2, rest⟩⟩
  · simp [parseM] at h
  · simp only [parseM] at h
    split at h
    · simp only [Option.some.injEq, Prod.mk.injEq] at h
      exact Or.inl h.2.symm
    · simp at h
  · simp only [parseM] at h
    split_ifs at h <;>
      simp only [Option.some.injEq, Prod.mk.injEq] at h
    · exact Or.inr h.2.symm
    · exact Or.inr h.2.symm
    · exact Or.inl h.2.symm

theorem parseD_rest {cs : List Char} {v : Nat} {r : List Char}
    (h : parseD cs = some (v, r)) : r = cs.drop 1 ∨ r = cs.drop 2 := by
  rcases cs with _ | ⟨c1, _ | ⟨c2, rest⟩⟩
  · simp [parseD] at h
  · simp only [parseD] at h
    split at h
    · simp only [Option.some.injEq, Prod.mk.injEq] at h
      exact Or.inl h.2.symm
    · simp at h
  · simp only [parseD] at h
    split_ifs at h <;>
      simp only [Option.some.injEq, Prod.mk.injEq] at h
    · exact Or.inr h.2.symm
    · exact Or.inr h.2.symm
    · exact Or.inr h.2.symm
    · exact Or.inl h.2.symm

/-- When `%Y` matches (four leading digits), neither slash pattern can: both
expect a slash as the second or third character, which is a digit. -/
theorem dmy_mdy_none_of_parseY {cs : List Char} {p : Nat × List Char}
    (h : parseY cs = some p) :
    tryFmtDMY cs = none ∧ tryFmtMDY cs = none := by
  rcases cs with _ | ⟨a, _ | ⟨b, _ | ⟨c, _ | ⟨d, rest⟩⟩⟩⟩
  · simp [parseY] at h
  · simp [parseY] at h
  · simp [parseY] at h
  · simp [parseY] at h
  · rw [parseY] at h
    split at h
    · rename_i hcond
      simp only [Bool.and_eq_true] at hcond
      obtain ⟨⟨⟨ha, hb⟩, hc⟩, hd⟩ := hcond
      have hbs : ¬ b = '/' := fun he => by
        rw [he] at hb
        exact absurd hb (by decide)
      have hcs : ¬ c = '/' := fun he => by
        rw [he] at hc
        exact absurd hc (by decide)
      constructor
      · cases hp : parseD (a :: b :: c :: d :: rest) with
        | none => simp [tryFmtDMY, hp]
        | some q =>
          obtain ⟨v, r1⟩ := q
          rcases parseD_rest hp with h1 | h1 <;> subst h1 <;>
            simp [tryFmtDMY, hp, expectChar, hbs, hcs]
      · cases hp : parseM (a :: b :: c :: d :: rest) with
        | none => simp [tryFmtMDY, hp]
        | some q =>
          obtain ⟨v, r1⟩ := q
          rcases parseM_rest hp with h1 | h1 <;> subst h1 <;>
            simp [tryFmtMDY, hp, expectChar, hbs, hcs]
    · simp at h

/-- The three year-first formats fail whenever the day-first pattern
matches, so a day-first match is what the strptime loop returns. -/
theorem strptime_dayfirst {cs : List Char} {d : Date}
    (h : tryFmtDMY cs = some d) : strptimeList cs = some d := by
  have hYnone : ∀ {e : Date},
      (tryFmtYM cs = some e ∨ tryFmtYslashM cs = some e ∨ tryFmtYMD cs = some e) →
      False := by
    intro e he
    cases hp : parseY cs with
    | none =>
      rcases he with he | he | he <;>
        simp [tryFmtYM, tryFmtYslashM, tryFmtYMD, hp] at he
    | some p =>
      have := (dmy_mdy_none_of_parseY hp).1
      rw [h] at this
      exact Option.noConfusion this
  have h1 : tryFmtYM cs = none := by
    cases he : tryFmtYM cs with
    | none => rfl
    | some e => exact absurd (Or.inl he) hYnone
  have h2 : tryFmtYslashM cs = none := by
    cases he : tryFmtYslashM cs with
    | none => rfl
    | some e => exact absurd (Or.inr (Or.inl he)) hYnone
  have h3 : tryFmtYMD cs = none := by
    cases he : tryFmtYMD cs with
    | none => rfl
    | some e => exact absurd (Or.inr (Or.inr he)) hYnone
  rw [strptimeList, h1, h2, h3, h]

/-- When the day-first pattern fails, a month-first match is what the
strptime loop returns (the year-first formats cannot match either). -/
theorem strptime_monthfirst {cs : List Char} {d : Date}
    (h0 : tryFmtDMY cs = none) (h : tryFmtMDY cs = some d) :
    strptimeList cs = some d := by
  have hYnone : ∀ {e : Date},
      (tryFmtYM cs = some e ∨ tryFmtYslashM cs = some e ∨ tryFmtYMD cs = some e) →
      False := by
    intro e he
    cases hp : parseY cs with
    | none =>
      rcases he with he | he | he <;>
        simp [tryFmtYM, tryFmtYslashM, tryFmtYMD, hp] at he
    | some p =>
      have := (dmy_mdy_none_of_parseY hp).2
      rw [h] at this
      exact Option.noConfusion this
  have h1 : tryFmtYM cs = none := by
    cases he : tryFmtYM cs with
    | none => rfl
    | some e => exact absurd (Or.inl he) hYnone
  have h2 : tryFmtYslashM cs = none := by
    cases he : tryFmtYslashM cs with
    | none => rfl
    | some e => exact absurd (Or.inr (Or.inl he)) hYnone
  have h3 : tryFmtYMD cs = none := by
    cases he : tryFmtYMD cs with
    | none => rfl
    | some e => exact absurd (Or.inr (Or.inr he)) hYnone
  rw [strptimeList, h1, h2, h3, h0, h]

/-- C3 counterexample: the claim's universal clause — "a leading two-digit
value <= 12 is parsed as the day" — fails at "08/13/2025": its leading value
08 is <= 12, yet the day-first pattern fails on the whole string (the second
slot 13 is not a month), and the normalizer returns the month-first reading,
in which the leading 08 is the MONTH; the result is not the day-first
reading "2025-13". -/
theorem C3_dayfirst_cex :
    tryFmtDMY ("08/13/2025".toList) = none ∧
    tryFmtMDY ("08/13/2025".toList) = some ⟨2025, 8, 13⟩ ∧
    normalize_month ⟨2000, 1, 1⟩ (PyVal.txt "08/13/2025") = some "2025-08" ∧
    normalize_month ⟨2000, 1, 1⟩ (PyVal.txt "08/13/2025")
      ≠ some (fmtYM 2025 13) := by
  decide

/-- C3 (amended): the strptime loop tries the day-first slash pattern before
the month-first one: whatever string the day-first pattern fully parses is
normalized day-first (the year-first patterns cannot match such a string),
and a string the day-first pattern cannot parse falls through to the
month-first pattern; so a leading value <= 12 is parsed as the day exactly
when the whole string admits a day-first reading, and otherwise as the
month.  In particular normalize("13/08/2025") = "2025-08" (day-first) and
normalize("08/13/2025") = "2025-08" (month-first), whatever the clock. -/
theorem C3_dayfirst_order :
    (∀ (cs : List Char) (d : Date),
        tryFmtDMY cs = some d → strptimeList cs = some d) ∧
    (∀ (cs : List Char) (d : Date),
        tryFmtDMY cs = none → tryFmtMDY cs = some d → strptimeList cs = some d) ∧
    (∀ t : Date, normalize_month t (PyVal.txt "13/08/2025") = some "2025-08") ∧
    (∀ t : Date, normalize_month t (PyVal.txt "08/13/2025") = some "2025-08") :=
  ⟨fun _ _ h => strptime_dayfirst h,
   fun _ _ h0 h => strptime_monthfirst h0 h,
   fun _ => rfl, fun _ => rfl⟩

/-- Witness for C3 at the two concrete slash dates of the claim. -/
theorem C3_dayfirst_order_witness :
    (tryFmtDMY ("13/08/2025".toList) = some ⟨2025, 8, 13⟩) ∧
    strptimeList ("13/08/2025".toList) = some ⟨2025, 8, 13⟩ ∧
    (tryFmtDMY ("08/13/2025".toList) = none) ∧
    (tryFmtMDY ("08/13/2025".toList) = some ⟨2025, 8, 13⟩) ∧
    strptimeList ("08/13/2025".toList) = some ⟨2025, 8, 13⟩ :=
  ⟨by decide, C3_dayfirst_order.1 _ _ (by decide), by decide, by decide,
   C3_dayfirst_order.2.1 _ _ (by decide) (by decide)⟩

/-! ## Claim C6 — the YTD window ends at the last month with data -/

/-- C6: for a ledger with data in the selected year (and well-formed month
numbers), the YTD cutoff is exactly the maximum month number present in the
data for that year — some record attains it and no record of the year
exceeds it — the YTD month filter then excludes no record of the year (later
months have no data to exclude), and the enumerated window consists of
exactly the columns January through the cutoff, so later months get no
columns.  The computation is a function of the ledger alone and never reads
the wall clock. -/
theorem C6_ytd_cutoff (master : List Row) (year : String)
    (hne : (master.filter fun r => startsWithStr r.month year) ≠ [])
    (hwf : ∀ r ∈ master, startsWithStr r.month year → 1 ≤ monthNum r.month) :
    (∃ r ∈ master, startsWithStr r.month year
        ∧ monthNum r.month = cutoff_month master year) ∧
    (∀ r ∈ master, startsWithStr r.month year
        → monthNum r.month ≤ cutoff_month master year) ∧
    (ytd_rows master year (cutoff_month master year)
      = master.filter fun r => startsWithStr r.month year) ∧
    ((months_in_year year (some (cutoff_month master year))).length
      = cutoff_month master year) ∧
    (∀ j, j < cutoff_month master year →
      (months_in_year year (some (cutoff_month master year))).getD j ""
        = year ++ "-" ++ pad2 (1 + j)) := by
  have hlt : monthsForYear master year ≠ [] := by
    rw [monthsForYear]
    intro h
    have hlen := congrArg List.length h
    rw [length_sortLe, List.length_map] at hlen
    exact hne (List.length_eq_zero.mp (by simpa using hlen))
  have hc : cutoff_month master year = (monthsForYear master year).getLastD 12 := by
    rw [cutoff_month, if_neg (by simpa [List.isEmpty_iff] using hlt)]
  have hmem : cutoff_month master year ∈ monthsForYear master year := by
    rw [hc]
    exact getLastD_mem _ _ hlt
  have hmem2 : ∃ r ∈ master, startsWithStr r.month year
      ∧ monthNum r.month = cutoff_month master year := by
    rw [monthsForYear, mem_sortLe, List.mem_map] at hmem
    obtain ⟨r, hr, hv⟩ := hmem
    rw [List.mem_filter] at hr
    exact ⟨r, hr.1, hr.2, hv⟩
  have hub : ∀ x ∈ monthsForYear master year, x ≤ cutoff_month master year := by
    intro x hx
    have hpw : (monthsForYear master year).Pairwise
        fun a b => (decide (a ≤ b)) = true := by
      rw [monthsForYear]
      exact pairwise_sortLe
        (fun a b => by rcases Nat.le_total a b with h | h <;> simp [h])
        (fun a b c h1 h2 => by
          simp only [decide_eq_true_eq] at *
          omega) _
    rcases rel_getLastD_of_pairwise hpw hx 12 with h | h
    · rw [hc]
      omega
    · rw [hc]
      simpa using h
  have hub2 : ∀ r ∈ master, startsWithStr r.month year
      → monthNum r.month ≤ cutoff_month master year := by
    intro r hr hs
    refine hub _ ?_
    rw [monthsForYear, mem_sortLe, List.mem_map]
    exact ⟨r, List.mem_filter.mpr ⟨hr, hs⟩, rfl⟩
  obtain ⟨r0, hr0m, hr0s, hr0v⟩ := hmem2
  have h1c : 1 ≤ cutoff_month master year := hr0v ▸ hwf r0 hr0m hr0s
  have hc0 : ¬ cutoff_month master year = 0 := by omega
  have hmeq : months_in_year year (some (cutoff_month master year))
      = (List.range' 1 (cutoff_month master year)).map
          (fun mm => year ++ "-" ++ pad2 mm) := by
    simp [months_in_year, hc0]
  refine ⟨⟨r0, hr0m, hr0s, hr0v⟩, hub2, ?_, ?_, ?_⟩
  · rw [ytd_rows]
    apply List.filter_eq_self.mpr
    intro r hr
    rw [List.mem_filter] at hr
    simpa using hub2 r hr.1 hr.2
  · rw [hmeq]
    simp
  · intro j hj
    rw [hmeq]
    have hjlen : j < ((List.range' 1 (cutoff_month master year)).map
        (fun mm => year ++ "-" ++ pad2 mm)).length := by
      simpa using hj
    rw [List.getD_eq_getElem?_getD, List.getElem?_eq_getElem hjlen,
      Option.getD_some, List.getElem_map, List.getElem_range']
    norm_num

/-- Witness for C6 at a concrete ledger whose 2025 data ends in March. -/
theorem C6_ytd_cutoff_witness :
    (∃ r ∈ exC6master, startsWithStr r.month "2025"
        ∧ monthNum r.month = cutoff_month exC6master "2025") ∧
    (∀ r ∈ exC6master, startsWithStr r.month "2025"
        → monthNum r.month ≤ cutoff_month exC6master "2025") ∧
    (ytd_rows exC6master "2025" (cutoff_month exC6master "2025")
      = exC6master.filter fun r => startsWithStr r.month "2025") ∧
    ((months_in_year "2025" (some (cutoff_month exC6master "2025"))).length
      = cutoff_month exC6master "2025") ∧
    (∀ j, j < cutoff_month exC6master "2025" →
      (months_in_year "2025" (some (cutoff_month exC6master "2025"))).getD j ""
        = "2025" ++ "-" ++ pad2 (1 + j)) :=
  C6_ytd_cutoff exC6master "2025" (by decide) (by decide)

/-! ## Claim C7 — row ordering of the pivot view -/

/-- C7 counterexample: with the default controls — sort choice
"(Alphabetical)" and the Ascending checkbox at its default False — the view
orders sources alphabetically DESCENDING, not ascending as claimed; and a
descending month-column sort places tied sources in descending name order,
not ascending.  Both runs start from actual ledgers via the pivot
construction. -/
theorem C7_row_ordering_cex :
    ((pivot_view (pivotMatrix
        [⟨"p", "A", "2025-01", none⟩, ⟨"q", "B", "2025-01", none⟩,
         ⟨"r", "B", "2025-01", none⟩] ["2025-01"]) none false).map Prod.fst
      ≠ ["A", "B"]) ∧
    ((pivot_view (pivotMatrix
        [⟨"p", "A", "2025-01", none⟩, ⟨"q", "B", "2025-01", none⟩,
         ⟨"r", "B", "2025-01", none⟩] ["2025-01"]) none false).map Prod.fst
      = ["B", "A"]) ∧
    ((pivot_view (pivotMatrix
        [⟨"p", "A", "2025-01", none⟩, ⟨"q", "B", "2025-01", none⟩]
        ["2025-01"]) (some 0) false).map Prod.fst ≠ ["A", "B"]) ∧
    ((pivot_view (pivotMatrix
        [⟨"p", "A", "2025-01", none⟩, ⟨"q", "B", "2025-01", none⟩]
        ["2025-01"]) (some 0) false).map Prod.fst = ["B", "A"]) := by
  decide

/-- C7 (amended): the alphabetical sort follows the Ascending flag, whose
default is off — so the default view is alphabetically descending, and
ascending only when the flag is set; a month-column sort orders rows by that
column's value, with tied rows in ascending source order when ascending and
in descending source order when descending (the descending sort is the
reversal of the stable ascending sort, as in pandas). -/
theorem C7_row_ordering (rs : List Row) (w : List String) (j : Nat) :
    (((pivot_view (pivotMatrix rs w) none true).map Prod.fst).Pairwise
      fun a b => strLe a b = true) ∧
    (((pivot_view (pivotMatrix rs w) none false).map Prod.fst).Pairwise
      fun a b => strLe b a = true) ∧
    ((pivot_view (pivotMatrix rs w) (some j) true).Pairwise
      (lexKN (colVal j) Prod.fst)) ∧
    ((pivot_view (pivotMatrix rs w) (some j) false).Pairwise
      fun a b => lexKN (colVal j) Prod.fst b a) := by
  have hstot : ∀ a b : String × List Nat,
      strLe a.1 b.1 = true ∨ strLe b.1 a.1 = true := fun a b =>
    strLe_total a.1 b.1
  have hstr : ∀ a b c : String × List Nat,
      strLe a.1 b.1 = true → strLe b.1 c.1 = true → strLe a.1 c.1 = true :=
    fun _ _ _ h1 h2 => strLe_trans h1 h2
  have hname := pairwise_sortLe hstot hstr (pivotMatrix rs w)
  have hP : (pivotMatrix rs w).Pairwise fun a b => strLe a.1 b.1 = true := by
    rw [pivotMatrix, List.pairwise_map]
    have := pairwise_sortLe strLe_total
      (fun _ _ _ h1 h2 => strLe_trans h1 h2)
      (dedupStr (rs.map fun r => r.referral_source))
    rw [pivotSources]
    exact this.imp fun h => h
  refine ⟨?_, ?_, ?_, ?_⟩
  · simp only [pivot_view, if_true]
    rw [List.pairwise_map]
    exact hname.imp fun h => h
  · simp only [pivot_view, Bool.false_eq_true, if_false]
    rw [List.map_reverse, List.pairwise_reverse, List.pairwise_map]
    exact hname.imp fun h => h
  · simp only [pivot_view, if_true]
    exact pairwise_lex_sortLe (colVal j) Prod.fst hP
  · simp only [pivot_view, Bool.false_eq_true, if_false]
    rw [List.pairwise_reverse]
    exact pairwise_lex_sortLe (colVal j) Prod.fst hP

end Referrals

